import Mathlib

/-!
Verification of `markdown_image_downloader.py` (Allen-Dora/markdown-image-download).

This file gives a shallow embedding of the program's core operations and proves
properties about them.  Text is modelled as `List Char`, byte payloads as
`List Nat` (each entry a byte value), and the external world (HTTP responses,
the filesystem, the PIL image library) as explicit oracle parameters.  Each
embedded definition carries a comment naming the Python function it translates.
-/

set_option autoImplicit false

universe u v

/-- Convert a string literal to the `List Char` representation used throughout. -/
def toL (s : String) : List Char := s.data

/-- Concatenate a list of lists (used instead of `List.flatten` for stability). -/
def flatCat {α : Type u} : List (List α) → List α
  | [] => []
  | x :: xs => x ++ flatCat xs

/-- Longest prefix of characters satisfying `p`, together with the remainder.
Models the greedy matching of a regex character-class repetition. -/
def takeRun (p : Char → Bool) : List Char → List Char × List Char
  | [] => ([], [])
  | c :: cs =>
    if p c then
      let r := takeRun p cs
      (c :: r.1, r.2)
    else ([], c :: cs)

/-- Python `needle in haystack` substring test. -/
def containsSub (hay needle : List Char) : Bool :=
  match hay with
  | [] => needle.isEmpty
  | _ :: t => needle.isPrefixOf hay || containsSub t needle

/-- Python `str.lower()` (ASCII model). -/
def lowerL (l : List Char) : List Char := l.map Char.toLower

/-- The apostrophe character (single quote). -/
def squote : Char := Char.ofNat 39

/-- Python `str.replace(old, new)` replacing all non-overlapping occurrences
left to right, with explicit fuel (`fuel = s.length` suffices for `old ≠ []`). -/
def pyReplaceF (old new : List Char) : Nat → List Char → List Char
  | 0, s => s
  | _ + 1, [] => []
  | fuel + 1, c :: rest =>
    if old.isPrefixOf (c :: rest) then
      new ++ pyReplaceF old new fuel ((c :: rest).drop old.length)
    else c :: pyReplaceF old new fuel rest

/-- Python `str.replace(old, new)`. -/
def pyReplace (s old new : List Char) : List Char := pyReplaceF old new s.length s

/-! ## Model of the PIL image library

`compress_image` uses `PIL.Image`.  We model decoding as an oracle returning an
abstract image handle (`Nat`), and encoding as an oracle from handle, format
string and quality level to bytes; `none` models a raised exception, which the
Python code catches by returning the original payload. -/

/-- Oracle model of the PIL operations used by `compress_image`. -/
structure PILEnv where
  decodeImg : List Nat → Option Nat
  isRGBA : Nat → Bool
  flattenWhite : Nat → Nat
  save : Nat → List Char → Nat → Option (List Nat)

/-- The JPEG format name passed to `img.save`. -/
def jpegFmt : List Char := toL "JPEG"

/-- The quality schedule `range(85, 20, -5)` of `compress_image`. -/
def qualityList : List Nat := [85, 80, 75, 70, 65, 60, 55, 50, 45, 40, 35, 30, 25]

/-- The quality-descent loop of `compress_image`: try each quality in order,
returning the first encoding within budget; after the loop, encode at
quality 20.  `none` models an exception escaping to the handler. -/
def compressLoop (pil : PILEnv) (img : Nat) (maxKB : Nat) : List Nat → Option (List Nat)
  | [] => pil.save img jpegFmt 20
  | q :: qs =>
    match pil.save img jpegFmt q with
    | none => none
    | some d => if d.length ≤ maxKB * 1024 then some d else compressLoop pil img maxKB qs

/-- Embedding of `MarkdownImageDownloader.compress_image`.  Any exception in
the `try` block (a failed decode or a failed encode) yields the original data. -/
def compress_image (pil : PILEnv) (image_data : List Nat) (max_size_kb : Nat) : List Nat :=
  if image_data.length ≤ max_size_kb * 1024 then image_data
  else
    match pil.decodeImg image_data with
    | none => image_data
    | some img0 =>
      let img := if pil.isRGBA img0 then pil.flattenWhite img0 else img0
      match compressLoop pil img max_size_kb qualityList with
      | none => image_data
      | some d => d

/-! ## Model of the fetcher `download_image`

Each attempt sees an environment: whether the destination file already exists,
the HTTP response, and whether the filesystem write succeeds.  The function
returns the boolean result, the number of attempts made, and the trace of
observable effects. -/

/-- Outcome of the HTTP GET of one attempt. -/
inductive FetchResp where
  | netErr : FetchResp
  | badStatus : FetchResp
  | ok : List Nat → List Char → FetchResp

/-- Per-attempt external environment of `download_image`. -/
structure AttemptEnv where
  fileExists : Bool
  resp : FetchResp
  writeOk : Bool

/-- Observable effects of `download_image`. -/
inductive FetchEv where
  | sleepHalf : FetchEv
  | netGet : FetchEv
  | mkdirParents : FetchEv
  | fileWrite : List Nat → FetchEv
  | sleepBackoff : Nat → FetchEv
deriving DecidableEq

/-- Whether the declared content type contains `svg` (case-insensitively);
embeds `'svg' not in content_type.lower()` negated. -/
def containsSvg (ct : List Char) : Bool := containsSub (lowerL ct) (toL "svg")

/-- One attempt of `download_image` (the body of its `try` block): existence
skip, fixed pre-request delay, GET, status check, small-payload check,
conditional recompression, mkdir and write.  Returns success flag and events. -/
def attemptStep (a : AttemptEnv) (pil : PILEnv) : Bool × List FetchEv :=
  if a.fileExists then (true, [])
  else
    match a.resp with
    | FetchResp.netErr => (false, [FetchEv.sleepHalf, FetchEv.netGet])
    | FetchResp.badStatus => (false, [FetchEv.sleepHalf, FetchEv.netGet])
    | FetchResp.ok body ct =>
      if body.length < 100 then (false, [FetchEv.sleepHalf, FetchEv.netGet])
      else
        let data := if containsSvg ct then body else compress_image pil body 500
        if a.writeOk then
          (true, [FetchEv.sleepHalf, FetchEv.netGet, FetchEv.mkdirParents, FetchEv.fileWrite data])
        else (false, [FetchEv.sleepHalf, FetchEv.netGet, FetchEv.mkdirParents])

/-- The retry recursion of `download_image`: on failure with
`retries < max_retries`, sleep `2 ** retries` and recurse with `retries + 1`.
`fuel` bounds the recursion; `max_retries + 1 - retries` suffices.
Returns (success, attempts made, event trace). -/
def downloadGo (env : Nat → AttemptEnv) (pil : PILEnv) (maxRetries : Nat) :
    Nat → Nat → Bool × Nat × List FetchEv
  | 0, _ => (false, 0, [])
  | fuel + 1, r =>
    match attemptStep (env r) pil with
    | (true, evs) => (true, 1, evs)
    | (false, evs) =>
      if r < maxRetries then
        let rest := downloadGo env pil maxRetries fuel (r + 1)
        (rest.1, rest.2.1 + 1, evs ++ FetchEv.sleepBackoff (2 ^ r) :: rest.2.2)
      else (false, 1, evs)

/-- Embedding of `MarkdownImageDownloader.download_image` called with
`retries = 0` (as the coordinator does). -/
def download_image (env : Nat → AttemptEnv) (pil : PILEnv) (maxRetries : Nat) :
    Bool × Nat × List FetchEv :=
  downloadGo env pil maxRetries (maxRetries + 1) 0

/-- The backoff delays appearing in an event trace, in order. -/
def backoffs (evs : List FetchEv) : List Nat :=
  evs.filterMap fun e =>
    match e with
    | FetchEv.sleepBackoff s => some s
    | _ => none

/-! ## MD5 (model of `hashlib.md5`)

A direct implementation of MD5 over byte lists, with 32-bit words represented
as `Nat` reduced modulo `2 ^ 32`. -/

/-- Addition modulo `2 ^ 32`. -/
def add32 (a b : Nat) : Nat := (a + b) % 4294967296

/-- Bitwise complement within 32 bits (argument assumed `< 2 ^ 32`). -/
def not32 (x : Nat) : Nat := 4294967295 - x

/-- Left rotation of a 32-bit word by `n` places (`0 ≤ n < 32`). -/
def rotl32 (x n : Nat) : Nat := (x * 2 ^ n + x / 2 ^ (32 - n)) % 4294967296

/-- The MD5 per-round shift amounts. -/
def mdS : List Nat :=
  [7, 12, 17, 22, 7, 12, 17, 22, 7, 12, 17, 22, 7, 12, 17, 22,
   5, 9, 14, 20, 5, 9, 14, 20, 5, 9, 14, 20, 5, 9, 14, 20,
   4, 11, 16, 23, 4, 11, 16, 23, 4, 11, 16, 23, 4, 11, 16, 23,
   6, 10, 15, 21, 6, 10, 15, 21, 6, 10, 15, 21, 6, 10, 15, 21]

/-- The MD5 sine-derived constants. -/
def mdK : List Nat :=
  [0xd76aa478, 0xe8c7b756, 0x242070db, 0xc1bdceee,
   0xf57c0faf, 0x4787c62a, 0xa8304613, 0xfd469501,
   0x698098d8, 0x8b44f7af, 0xffff5bb1, 0x895cd7be,
   0x6b901122, 0xfd987193, 0xa679438e, 0x49b40821,
   0xf61e2562, 0xc040b340, 0x265e5a51, 0xe9b6c7aa,
   0xd62f105d, 0x02441453, 0xd8a1e681, 0xe7d3fbc8,
   0x21e1cde6, 0xc33707d6, 0xf4d50d87, 0x455a14ed,
   0xa9e3e905, 0xfcefa3f8, 0x676f02d9, 0x8d2a4c8a,
   0xfffa3942, 0x8771f681, 0x6d9d6122, 0xfde5380c,
   0xa4beea44, 0x4bdecfa9, 0xf6bb4b60, 0xbebfbc70,
   0x289b7ec6, 0xeaa127fa, 0xd4ef3085, 0x04881d05,
   0xd9d4d039, 0xe6db99e5, 0x1fa27cf8, 0xc4ac5665,
   0xf4292244, 0x432aff97, 0xab9423a7, 0xfc93a039,
   0x655b59c3, 0x8f0ccc92, 0xffeff47d, 0x85845dd1,
   0x6fa87e4f, 0xfe2ce6e0, 0xa3014314, 0x4e0811a1,
   0xf7537e82, 0xbd3af235, 0x2ad7d2bb, 0xeb86d391]

/-- The MD5 round mixing function for round `i`. -/
def md5F (i b c d : Nat) : Nat :=
  if i < 16 then (b &&& c) ||| (not32 b &&& d)
  else if i < 32 then (d &&& b) ||| (not32 d &&& c)
  else if i < 48 then b ^^^ c ^^^ d
  else c ^^^ (b ||| not32 d)

/-- The MD5 message-word index for round `i`. -/
def md5G (i : Nat) : Nat :=
  if i < 16 then i
  else if i < 32 then (5 * i + 1) % 16
  else if i < 48 then (3 * i + 5) % 16
  else (7 * i) % 16

/-- One of the 64 MD5 operations, acting on the state `(a, b, c, d)`. -/
def md5Round (M : List Nat) (st : Nat × Nat × Nat × Nat) (i : Nat) : Nat × Nat × Nat × Nat :=
  let f := add32 (add32 (add32 (md5F i st.2.1 st.2.2.1 st.2.2.2) st.1) (mdK.getD i 0))
    (M.getD (md5G i) 0)
  (st.2.2.2, add32 st.2.1 (rotl32 f (mdS.getD i 0)), st.2.1, st.2.2.1)

/-- Process one 64-byte chunk (given as 16 little-endian words). -/
def md5Chunk (st : Nat × Nat × Nat × Nat) (M : List Nat) : Nat × Nat × Nat × Nat :=
  let r := (List.range 64).foldl (md5Round M) st
  (add32 st.1 r.1, add32 st.2.1 r.2.1, add32 st.2.2.1 r.2.2.1, add32 st.2.2.2 r.2.2.2)

/-- A 64-bit value as 8 little-endian bytes. -/
def le64 (n : Nat) : List Nat :=
  [n % 256, n / 2 ^ 8 % 256, n / 2 ^ 16 % 256, n / 2 ^ 24 % 256,
   n / 2 ^ 32 % 256, n / 2 ^ 40 % 256, n / 2 ^ 48 % 256, n / 2 ^ 56 % 256]

/-- A 32-bit word as 4 little-endian bytes. -/
def le32 (n : Nat) : List Nat := [n % 256, n / 256 % 256, n / 65536 % 256, n / 16777216 % 256]

/-- MD5 padding: `0x80`, zeros to 56 mod 64, then the bit length little-endian. -/
def md5Pad (msg : List Nat) : List Nat :=
  msg ++ 128 :: List.replicate ((56 + 64 - (msg.length + 1) % 64) % 64) 0 ++ le64 (msg.length * 8)

/-- Group a byte list into little-endian 32-bit words. -/
def bytesToWords : List Nat → List Nat
  | b0 :: b1 :: b2 :: b3 :: rest =>
    (b0 + 256 * b1 + 65536 * b2 + 16777216 * b3) :: bytesToWords rest
  | _ => []

/-- Split a list into 64-byte chunks (fuel-based; `fuel = l.length` suffices). -/
def chunks64F {α : Type u} : Nat → List α → List (List α)
  | 0, _ => []
  | _, [] => []
  | fuel + 1, l => l.take 64 :: chunks64F fuel (l.drop 64)

/-- Split a list into 64-byte chunks. -/
def chunks64 {α : Type u} (l : List α) : List (List α) := chunks64F l.length l

/-- The 16-byte MD5 digest of a byte message. -/
def md5Digest (msg : List Nat) : List Nat :=
  let st := (chunks64 (md5Pad msg)).foldl (fun st ch => md5Chunk st (bytesToWords ch))
    (0x67452301, 0xefcdab89, 0x98badcfe, 0x10325476)
  le32 st.1 ++ le32 st.2.1 ++ le32 st.2.2.1 ++ le32 st.2.2.2

/-- Lower-case hex digit for a value `< 16`. -/
def hexChar (n : Nat) : Char := if n < 10 then Char.ofNat (48 + n) else Char.ofNat (87 + n)

/-- Two hex digits of a byte. -/
def byteHex (b : Nat) : List Char := [hexChar (b / 16), hexChar (b % 16)]

/-- `hashlib.md5(x).hexdigest()`. -/
def md5hex (msg : List Nat) : List Char := flatCat ((md5Digest msg).map byteHex)

/-- UTF-8 encoding of one character (models Python `str.encode()` per code point). -/
def utf8Bytes (c : Char) : List Nat :=
  let n := c.toNat
  if n < 128 then [n]
  else if n < 2048 then [192 + n / 64, 128 + n % 64]
  else if n < 65536 then [224 + n / 4096, 128 + n / 64 % 64, 128 + n % 64]
  else [240 + n / 262144, 128 + n / 4096 % 64, 128 + n / 64 % 64, 128 + n % 64]

/-- UTF-8 encoding of a character list (models Python `str.encode()`). -/
def utf8Encode (s : List Char) : List Nat := flatCat (s.map utf8Bytes)

/-! ## Models of the `urllib` / `os.path` standard-library calls -/

/-- Hex digit test (both cases), as used by percent-decoding. -/
def isHexDigitChar (c : Char) : Bool :=
  (('0' ≤ c && c ≤ '9') || ('a' ≤ c && c ≤ 'f') || ('A' ≤ c && c ≤ 'F'))

/-- Value of a hex digit. -/
def hexVal (c : Char) : Nat :=
  if '0' ≤ c && c ≤ '9' then c.toNat - 48
  else if 'a' ≤ c && c ≤ 'f' then c.toNat - 87
  else c.toNat - 55

/-- Models `urllib.parse.unquote` at the ASCII level: decode `%XX` hex escapes,
leave malformed percent signs untouched (multi-byte UTF-8 recombination is not
modelled; it does not affect the properties proved here). -/
def unquote : List Char → List Char
  | [] => []
  | '%' :: a :: b :: rest =>
    if isHexDigitChar a && isHexDigitChar b then
      Char.ofNat (16 * hexVal a + hexVal b) :: unquote rest
    else '%' :: unquote (a :: b :: rest)
  | c :: rest => c :: unquote rest

/-- Characters allowed in a URL scheme. -/
def schemeChar (c : Char) : Bool := c.isAlpha || c.isDigit || c = '+' || c = '-' || c = '.'

/-- Models the `.path` component of `urllib.parse.urlparse`: drop the fragment,
strip a syntactically valid `scheme:`, skip a `//netloc`, stop at the query. -/
def urlPath (u : List Char) : List Char :=
  let u1 := u.takeWhile (fun c => !(c = '#'))
  let pre := u1.takeWhile (fun c => !(c = ':'))
  let u2 :=
    if pre.length < u1.length && !pre.isEmpty &&
        (pre.headD ' ').isAlpha && pre.all schemeChar then
      u1.drop (pre.length + 1)
    else u1
  let u3 :=
    if (toL "//").isPrefixOf u2 then
      (u2.drop 2).dropWhile (fun c => !(c = '/' || c = '?'))
    else u2
  u3.takeWhile (fun c => !(c = '?'))

/-- Models `posixpath.basename`: everything after the last `/`. -/
def pyBasename (p : List Char) : List Char := (p.reverse.takeWhile (fun c => !(c = '/'))).reverse

/-- Index of the last occurrence of `c` in `p`, if any. -/
def lastIdx (p : List Char) (c : Char) : Option Nat :=
  match p.reverse.findIdx? (fun x => x = c) with
  | none => none
  | some i => some (p.length - 1 - i)

/-- Models `posixpath.splitext`: split at the last dot after the last slash,
unless only dots precede it in the final component (leading dots never start
an extension). -/
def splitext (p : List Char) : List Char × List Char :=
  match lastIdx p '.' with
  | none => (p, [])
  | some d =>
    match lastIdx p '/' with
    | none =>
      if (p.take d).any (fun c => !(c = '.')) then (p.take d, p.drop d) else (p, [])
    | some s =>
      if s < d then
        if ((p.drop (s + 1)).take (d - (s + 1))).any (fun c => !(c = '.')) then
          (p.take d, p.drop d)
        else (p, [])
      else (p, [])

/-! ## Name resolution (`sanitize_filename`, `get_image_extension`, `generate_filename`) -/

/-- The characters `sanitize_filename` replaces: `<>:"/\|?*`. -/
def illegalChars : List Char := toL "<>:\"/\\|?*"

/-- Embedding of `MarkdownImageDownloader.sanitize_filename`. -/
def sanitize_filename (filename : List Char) : List Char :=
  let f := illegalChars.foldl (fun acc c => acc.map (fun x => if x = c then '_' else x)) filename
  if 100 < f.length then (splitext f).1.take 95 ++ (splitext f).2 else f

/-- The recognized image extensions (already lower case in the source). -/
def imageExts : List (List Char) :=
  [toL ".jpg", toL ".jpeg", toL ".png", toL ".gif", toL ".bmp", toL ".webp", toL ".svg"]

/-- Embedding of `MarkdownImageDownloader.get_image_extension`. -/
def get_image_extension (url : List Char) (content_type : Option (List Char)) : List Char :=
  let path := unquote (urlPath url)
  let ext := (splitext path).2
  if lowerL ext ∈ imageExts then lowerL ext
  else
    match content_type with
    | some ct =>
      if !ct.isEmpty then
        if containsSub ct (toL "jpeg") || containsSub ct (toL "jpg") then toL ".jpg"
        else if containsSub ct (toL "png") then toL ".png"
        else if containsSub ct (toL "gif") then toL ".gif"
        else if containsSub ct (toL "webp") then toL ".webp"
        else if containsSub ct (toL "svg") then toL ".svg"
        else toL ".jpg"
      else toL ".jpg"
    | none => toL ".jpg"

/-- Embedding of `MarkdownImageDownloader.generate_filename`. -/
def generate_filename (url : List Char) (content_type : Option (List Char)) : List Char :=
  let url_hash := (md5hex (utf8Encode url)).take 12
  let original_name := pyBasename (unquote (urlPath url))
  if !original_name.isEmpty && original_name.contains '.' then
    let ne := splitext original_name
    if lowerL ne.2 ∈ imageExts then
      (sanitize_filename ne.1).take 20 ++ '_' :: url_hash ++ lowerL ne.2
    else toL "image_" ++ url_hash ++ get_image_extension url content_type
  else toL "image_" ++ url_hash ++ get_image_extension url content_type

/-! ## Reference extraction (`extract_image_urls`)

The two regexes are embedded as explicit scanners with the exact greedy
semantics of Python `re` on these patterns (no backtracking is possible in
the character-class repetitions except for the `[^>]+` of the tag pattern,
which is resolved by taking the latest feasible `src=` position). -/

/-- Word-character test of the regex `\w` (ASCII model). -/
def isWordChar (c : Char) : Bool := c.isAlphanum || c = '_'

/-- Quote test of the regex class `["\']`. -/
def isQuote (c : Char) : Bool := c = '"' || c = squote

/-- Character allowed in the regex class `[^"\'>]`. -/
def isValChar (c : Char) : Bool := !(c = '"' || c = squote || c = '>')

/-- Try to match `!\[([^\]]*)\]\(([^\)]+)\)` at the start of `s`; on success
return the two groups and the remainder after the match. -/
def tryBracket (s : List Char) : Option ((List Char × List Char) × List Char) :=
  match s with
  | '!' :: '[' :: rest =>
    let ar := takeRun (fun c => !(c = ']')) rest
    match ar.2 with
    | ']' :: '(' :: r2 =>
      let ur := takeRun (fun c => !(c = ')')) r2
      if ur.1.isEmpty then none
      else
        match ur.2 with
        | ')' :: r4 => some ((ar.1, ur.1), r4)
        | _ => none
    | _ => none
  | _ => none

/-- `re.findall` of the bracket-image pattern: scan left to right, emit each
non-overlapping match, otherwise advance one character (fuel-based). -/
def findBracketsF : Nat → List Char → List (List Char × List Char)
  | 0, _ => []
  | _ + 1, [] => []
  | fuel + 1, c :: rest =>
    match tryBracket (c :: rest) with
    | some (g, s) => g :: findBracketsF fuel s
    | none => findBracketsF fuel rest

/-- All matches of `!\[([^\]]*)\]\(([^\)]+)\)` as (alt, url) pairs. -/
def findBrackets (content : List Char) : List (List Char × List Char) :=
  findBracketsF content.length content

/-- Try to match `src=["\']([^"\'>]+)["\']` at the start of `t`, returning the
captured group. -/
def parseSrc (t : List Char) : Option (List Char) :=
  match t with
  | 's' :: 'r' :: 'c' :: '=' :: q :: r =>
    if isQuote q then
      let vr := takeRun isValChar r
      if vr.1.isEmpty then none
      else
        match vr.2 with
        | q2 :: _ => if isQuote q2 then some vr.1 else none
        | [] => none
    else none
  | _ => none

/-- Scan `R` (the run of non-`>` characters after `<img`) for the greatest
offset `j ≥ 1` at which `src=["\']...["\']` matches; this realizes the greedy
backtracking of `[^>]+` in `<img[^>]+src=...`. -/
def srcScan (R : List Char) : Nat → Option (List Char)
  | 0 => none
  | j + 1 =>
    match parseSrc (R.drop (j + 1)) with
    | some v => some v
    | none => srcScan R j

/-- Try to match `<img[^>]+src=["\']([^"\'>]+)["\'][^>]*>` at the start of
`s`; return the captured url, the whole matched tag and the remainder. -/
def tryImgTag (s : List Char) : Option ((List Char × List Char) × List Char) :=
  match s with
  | '<' :: 'i' :: 'm' :: 'g' :: rest =>
    let rr := takeRun (fun c => !(c = '>')) rest
    match rr.2 with
    | '>' :: r2 =>
      match srcScan rr.1 rr.1.length with
      | some url => some ((url, '<' :: 'i' :: 'm' :: 'g' :: rr.1 ++ ['>']), r2)
      | none => none
    | _ => none
  | _ => none

/-- `re.findall` of the tag pattern, collecting the captured urls. -/
def findImgTagsF : Nat → List Char → List (List Char)
  | 0, _ => []
  | _ + 1, [] => []
  | fuel + 1, c :: rest =>
    match tryImgTag (c :: rest) with
    | some ((url, _), s) => url :: findImgTagsF fuel s
    | none => findImgTagsF fuel rest

/-- All urls captured by `<img[^>]+src=["\']([^"\'>]+)["\'][^>]*>`. -/
def findImgTags (content : List Char) : List (List Char) :=
  findImgTagsF content.length content

/-- Try to match the tag pattern with a fixed literal url at the start of `s`
(the `re.search` pattern built with `re.escape(url)`); return the matched tag. -/
def tryTagWithUrl (url s : List Char) : Option (List Char) :=
  match s with
  | '<' :: 'i' :: 'm' :: 'g' :: rest =>
    let rr := takeRun (fun c => !(c = '>')) rest
    match rr.2 with
    | '>' :: _ =>
      let ok := (List.range (rr.1.length + 1)).any fun j =>
        if j = 0 then false
        else
          match rr.1.drop j with
          | 's' :: 'r' :: 'c' :: '=' :: q :: r =>
            isQuote q && url.isPrefixOf r &&
              (match r.drop url.length with
               | q2 :: _ => isQuote q2
               | [] => false)
          | _ => false
      if ok then some ('<' :: 'i' :: 'm' :: 'g' :: rr.1 ++ ['>']) else none
    | _ => none
  | _ => none

/-- `re.search` for the full tag carrying the given url: first position, left
to right, where the tag pattern matches (fuel-based). -/
def searchTagF (url : List Char) : Nat → List Char → Option (List Char)
  | 0, _ => none
  | _ + 1, [] => none
  | fuel + 1, c :: rest =>
    match tryTagWithUrl url (c :: rest) with
    | some tag => some tag
    | none => searchTagF url fuel rest

/-- `re.search` of the tag pattern with a fixed url over the whole content. -/
def searchTag (url content : List Char) : Option (List Char) :=
  searchTagF url content.length content

/-- The original text reconstructed for a bracket match: `![alt](url)`. -/
def bracketText (alt url : List Char) : List Char :=
  '!' :: '[' :: alt ++ ']' :: '(' :: url ++ [')']

/-- `url.startswith(('http://', 'https://'))`. -/
def startsHttp (url : List Char) : Bool :=
  (toL "http://").isPrefixOf url || (toL "https://").isPrefixOf url

/-- Embedding of `MarkdownImageDownloader.extract_image_urls`: bracket matches
first (as `(url, "![alt](url)")`), then tag matches (as `(url, full tag)`,
where the tag is re-located by `re.search`). -/
def extract_image_urls (content : List Char) : List (List Char × List Char) :=
  (findBrackets content).filterMap
    (fun g => if startsHttp g.2 then some (g.2, bracketText g.1 g.2) else none) ++
  (findImgTags content).filterMap
    (fun url =>
      if startsHttp url then
        match searchTag url content with
        | some tag => some (url, tag)
        | none => none
      else none)

/-! ## Rewriting (`process_markdown_file`, lines 287-310) -/

/-- Try to match `!\[([^\]]*)\]\([^\)]+\)` at the start (Python `re.match`),
returning the alt group. -/
def parseBracketAlt (s : List Char) : Option (List Char) :=
  match tryBracket s with
  | some (g, _) => some g.1
  | none => none

/-- One step of `re.findall` for `(\w+)=["\']([^"\'>]+)["\']`: try to match at
the start of `s`, returning the two groups and the remainder. -/
def tryAttr (s : List Char) : Option ((List Char × List Char) × List Char) :=
  let w := takeRun isWordChar s
  if w.1.isEmpty then none
  else
    match w.2 with
    | [] => none
    | c1 :: t1 =>
      if c1 = '=' then
        match t1 with
        | [] => none
        | q :: s2 =>
          if isQuote q then
            let vv := takeRun isValChar s2
            if vv.1.isEmpty then none
            else
              match vv.2 with
              | [] => none
              | q2 :: s4 => if isQuote q2 then some ((w.1, vv.1), s4) else none
          else none
      else none

/-- `re.findall` of the attribute pattern (fuel-based scan). -/
def findAttrsF : Nat → List Char → List (List Char × List Char)
  | 0, _ => []
  | _ + 1, [] => []
  | fuel + 1, c :: rest =>
    match tryAttr (c :: rest) with
    | some (g, s) => g :: findAttrsF fuel s
    | none => findAttrsF fuel rest

/-- All attribute name/value pairs found in a tag text. -/
def findAttrs (tag : List Char) : List (List Char × List Char) :=
  findAttrsF tag.length tag

/-- Python `dict` built from a pair list: first-occurrence key order, last
value wins. -/
def dictUpd (acc : List (List Char × List Char)) (k v : List Char) :
    List (List Char × List Char) :=
  if acc.any (fun p => p.1 = k) then
    acc.map (fun p => if p.1 = k then (k, v) else p)
  else acc ++ [(k, v)]

/-- Python `dict(pairs)` as an ordered association list. -/
def pyDict (l : List (List Char × List Char)) : List (List Char × List Char) :=
  l.foldl (fun acc p => dictUpd acc p.1 p.2) []

/-- Python `" ".join`. -/
def joinSp : List (List Char) → List Char
  | [] => []
  | [a] => a
  | a :: b :: rest => a ++ ' ' :: joinSp (b :: rest)

/-- The replacement text computed for one replacement-map entry (the body of
the rewrite loop of `process_markdown_file`): bracket entries are rebuilt from
the parsed alt text, tag entries are reassembled from the parsed attribute
dict with `src` first; `none` means the entry produces no replacement. -/
def rewriteEntry (original_text local_path : List Char) : Option (List Char) :=
  if (toL "![").isPrefixOf original_text then
    match parseBracketAlt original_text with
    | some alt => some ('!' :: '[' :: alt ++ ']' :: '(' :: local_path ++ [')'])
    | none => none
  else
    let attrs_dict := pyDict (findAttrs original_text)
    let new_attrs :=
      ('s' :: 'r' :: 'c' :: '=' :: '"' :: local_path ++ ['"']) ::
        (attrs_dict.filter (fun p => !(lowerL p.1 = toL "src"))).map
          (fun p => p.1 ++ '=' :: '"' :: p.2 ++ ['"'])
    some (toL "<img " ++ joinSp new_attrs ++ ['>'])

/-! ## The per-document coordinator (`process_markdown_file`) -/

/-- Result of processing one document: the fetch tasks dispatched (url and
local filename), whether the `images` folder was created, the replacement map
built from successful downloads, the final document text, and whether the
document file was rewritten. -/
structure ProcResult where
  dispatches : List (List Char × List Char)
  mkdirImages : Bool
  replacements : List (List Char × List Char)
  finalText : List Char
  wroteFile : Bool
deriving DecidableEq

/-- Embedding of `MarkdownImageDownloader.process_markdown_file` on a
document's text.  `outcome i` is the result of the `i`-th submitted download
(the thread pool is modelled by collecting completions in submission order;
none of the proved properties depends on completion order). -/
def processDoc (content : List Char) (outcome : Nat → Bool) : ProcResult :=
  let image_urls := extract_image_urls content
  if image_urls.isEmpty then
    { dispatches := [], mkdirImages := false, replacements := [],
      finalText := content, wroteFile := false }
  else
    let tasks := image_urls.map (fun p => (p.1, p.2, generate_filename p.1 none))
    let url_replacements := tasks.enum.foldl
      (fun acc ip =>
        if outcome ip.1 then dictUpd acc ip.2.2.1 (toL "images/" ++ ip.2.2.2) else acc)
      []
    let finalText :=
      if url_replacements.isEmpty then content
      else
        url_replacements.foldl
          (fun cur p =>
            match rewriteEntry p.1 p.2 with
            | some newText => pyReplace cur p.1 newText
            | none => cur)
          content
    { dispatches := tasks.map (fun t => (t.1, t.2.2)),
      mkdirImages := true,
      replacements := url_replacements,
      finalText := finalText,
      wroteFile := !url_replacements.isEmpty }

/-! ## Spec-side definitions used in theorem statements -/

/-- A rendered attribute `name="value"`. -/
def renderAttr (p : List Char × List Char) : List Char :=
  p.1 ++ '=' :: '"' :: p.2 ++ ['"']

/-- The attribute part of a rendered tag: a space before each attribute. -/
def attrsChars (attrs : List (List Char × List Char)) : List Char :=
  flatCat (attrs.map (fun p => ' ' :: renderAttr p))

/-- A canonical `<img ...>` tag carrying the given attribute list. -/
def renderTag (attrs : List (List Char × List Char)) : List Char :=
  toL "<img" ++ attrsChars attrs ++ ['>']

/-- A well-formed attribute: non-empty word-character name, non-empty value
free of quotes and `>`. -/
def goodAttr (p : List Char × List Char) : Bool :=
  !p.1.isEmpty && p.1.all isWordChar && !p.2.isEmpty && p.2.all isValChar

/-- A well-formed attribute list: well-formed attributes with distinct names. -/
def goodAttrs (attrs : List (List Char × List Char)) : Prop :=
  (∀ p ∈ attrs, goodAttr p = true) ∧ (attrs.map Prod.fst).Nodup

/-- The 12-character url fingerprint of `generate_filename`. -/
def urlHash12 (url : List Char) : List Char := (md5hex (utf8Encode url)).take 12

/-- Lower-case hex digit test. -/
def isHexChar (c : Char) : Bool := ('0' ≤ c && c ≤ '9') || ('a' ≤ c && c ≤ 'f')

/-- Filesystem-safe character: not a path separator or reserved character. -/
def fsSafeChar (c : Char) : Bool := !(illegalChars.contains c)

/-- The url-derived extension kept by `generate_filename` when its first
branch is taken (basename present, with a recognized image extension). -/
def extFromUrl (url : List Char) : Option (List Char) :=
  let original_name := pyBasename (unquote (urlPath url))
  if !original_name.isEmpty && original_name.contains '.' then
    if lowerL (splitext original_name).2 ∈ imageExts then
      some (lowerL (splitext original_name).2)
    else none
  else none

/-! ## Concrete fixtures for witnesses and counterexamples -/

/-- A PIL oracle whose decoder always succeeds and whose encoder returns a
one-byte payload recording the quality used. -/
def pilCE : PILEnv :=
  { decodeImg := fun _ => some 0, isRGBA := fun _ => false,
    flattenWhite := fun i => i, save := fun _ _ q => some [q] }

/-- A PIL oracle on which every operation fails (never consulted in the
fixtures that use it). -/
def pilTriv : PILEnv :=
  { decodeImg := fun _ => none, isRGBA := fun _ => false,
    flattenWhite := fun i => i, save := fun _ _ _ => none }

/-- An attempt environment where every attempt hits a network error. -/
def envFail : Nat → AttemptEnv :=
  fun _ => { fileExists := false, resp := FetchResp.netErr, writeOk := true }

/-- An attempt environment where the destination file already exists. -/
def envExists : Nat → AttemptEnv :=
  fun _ => { fileExists := true, resp := FetchResp.netErr, writeOk := true }

/-- An attempt whose response body is below the 100-byte threshold. -/
def aSmall : AttemptEnv :=
  { fileExists := false, resp := FetchResp.ok (List.replicate 5 1) (toL "image/png"),
    writeOk := true }

/-- The environment repeating `aSmall` on every attempt. -/
def envSmall : Nat → AttemptEnv := fun _ => aSmall

/-- An attempt whose response is a large SVG payload. -/
def aSvg : AttemptEnv :=
  { fileExists := false, resp := FetchResp.ok (List.replicate 150 0) (toL "image/svg+xml"),
    writeOk := true }

/-- A document with one remote bracket reference. -/
def doc1 : List Char := toL "![a](http://x/a.png)"

/-- A document with the same remote url referenced twice. -/
def doc2 : List Char := toL "a ![a](http://x/a.png) b ![a](http://x/a.png) c"

/-- A document with no remote references. -/
def docNone : List Char := toL "hello world"

/-- A well-formed attribute list for the tag round-trip witness. -/
def attrsW : List (List Char × List Char) :=
  [(toL "src", toL "http://x/a.png"), (toL "alt", toL "cat"), (toL "title", toL "t")]

/-! ## Helper lemmas -/

theorem backoffs_attemptStep (a : AttemptEnv) (pil : PILEnv) :
    backoffs (attemptStep a pil).2 = [] := by
  unfold attemptStep
  split
  · rfl
  · rcases a.resp with _ | _ | ⟨body, ct⟩ <;> simp only []
    · rfl
    · rfl
    · split
      · rfl
      · split <;> rfl

theorem backoffs_append (l1 l2 : List FetchEv) :
    backoffs (l1 ++ l2) = backoffs l1 ++ backoffs l2 := by
  simp [backoffs]

theorem backoffs_cons_sleep (s : Nat) (l : List FetchEv) :
    backoffs (FetchEv.sleepBackoff s :: l) = s :: backoffs l := by
  simp [backoffs]

theorem downloadGo_spec (env : Nat → AttemptEnv) (pil : PILEnv) (m : Nat) :
    ∀ fuel r, m + 1 ≤ fuel + r → r ≤ m →
      1 ≤ (downloadGo env pil m fuel r).2.1 ∧
      (downloadGo env pil m fuel r).2.1 + r ≤ m + 1 ∧
      backoffs (downloadGo env pil m fuel r).2.2 =
        (List.range' r ((downloadGo env pil m fuel r).2.1 - 1)).map (fun i => 2 ^ i) ∧
      ((downloadGo env pil m fuel r).1 = false →
        (downloadGo env pil m fuel r).2.1 + r = m + 1) := by
  intro fuel
  induction fuel with
  | zero => intro r h1 h2; omega
  | succ f ih =>
    intro r h1 h2
    have hstep := backoffs_attemptStep (env r) pil
    rcases hs : attemptStep (env r) pil with ⟨b, evs⟩
    rw [hs] at hstep
    cases b with
    | true =>
      simp only [downloadGo, hs]
      refine ⟨le_refl 1, by omega, ?_, by simp⟩
      simpa using hstep
    | false =>
      by_cases hr : r < m
      · have ihr := ih (r + 1) (by omega) (by omega)
        rcases hrec : downloadGo env pil m f (r + 1) with ⟨b', n', evs'⟩
        rw [hrec] at ihr
        obtain ⟨ih1, ih2, ih3, ih4⟩ := ihr
        simp only at ih1 ih2 ih3 ih4
        simp only [downloadGo, hs, if_pos hr, hrec]
        refine ⟨by omega, by omega, ?_, fun hb => by have h5 := ih4 hb; omega⟩
        rw [backoffs_append, hstep, backoffs_cons_sleep, ih3]
        simp only [List.nil_append, Nat.add_sub_cancel]
        have hn' : n' - 1 + 1 = n' := by omega
        rw [← hn', List.range'_succ]
        simp
      · simp only [downloadGo, hs, if_neg hr]
        refine ⟨le_refl 1, by omega, ?_, fun _ => by omega⟩
        simpa using hstep

theorem compressLoop_spec (pil : PILEnv) (img kb : Nat) (enc : Nat → List Nat)
    (henc : ∀ q, pil.save img jpegFmt q = some (enc q)) :
    ∀ qs : List Nat,
      compressLoop pil img kb qs =
        some (match qs.find? (fun q => (enc q).length ≤ kb * 1024) with
              | some q => enc q
              | none => enc 20) := by
  intro qs
  induction qs with
  | nil => simp [compressLoop, henc 20]
  | cons q t ih =>
    simp only [compressLoop, henc q, List.find?]
    by_cases h : (enc q).length ≤ kb * 1024
    · simp [h]
    · simp only [if_neg h, ih]
      have : (decide ((enc q).length ≤ kb * 1024)) = false := by simpa using h
      rw [this]

/-! ## Claim theorems -/

/-- C2: the fetch retry is bounded: at most `maxRetries + 1` attempts are made,
the backoff before the `(k+1)`-st retry is `2 ^ k` seconds (so the waits are
`1, 2, 4, ...` in order), and a `false` (failure) result occurs exactly after
all `maxRetries + 1` attempts are exhausted.  Termination is by construction
(the embedding is a total function). -/
theorem c2_retry_bounded (env : Nat → AttemptEnv) (pil : PILEnv) (m : Nat) :
    (download_image env pil m).2.1 ≤ m + 1 ∧
    1 ≤ (download_image env pil m).2.1 ∧
    backoffs (download_image env pil m).2.2 =
      (List.range ((download_image env pil m).2.1 - 1)).map (fun i => 2 ^ i) ∧
    ((download_image env pil m).1 = false → (download_image env pil m).2.1 = m + 1) := by
  have h := downloadGo_spec env pil m (m + 1) 0 (by omega) (by omega)
  obtain ⟨h1, h2, h3, h4⟩ := h
  refine ⟨by simpa [download_image] using h2, by simpa [download_image] using h1, ?_, ?_⟩
  · rw [List.range_eq_range']
    simpa [download_image] using h3
  · intro hb
    have := h4 (by simpa [download_image] using hb)
    simp only [download_image]
    omega

set_option maxRecDepth 20000 in
/-- C2 witness: with every attempt failing and the default `maxRetries = 3`,
exactly 4 attempts are made, the waits are 1, 2, 4 seconds, and the result is
failure. -/
theorem c2_retry_bounded_witness :
    (download_image envFail pilTriv 3).1 = false ∧
    (download_image envFail pilTriv 3).2.1 = 4 ∧
    backoffs (download_image envFail pilTriv 3).2.2 = [1, 2, 4] ∧
    (download_image envFail pilTriv 3).2.1 ≤ 3 + 1 :=
  ⟨by decide, by decide, by decide, (c2_retry_bounded envFail pilTriv 3).1⟩

/-- C4: if the destination path already exists, `download_image` returns
success after a single attempt with an empty effect trace: no sleep, no
network call, no directory creation and no file write, so an existing local
image file is never overwritten. -/
theorem c4_idempotent_skip (env : Nat → AttemptEnv) (pil : PILEnv) (m : Nat)
    (h : (env 0).fileExists = true) :
    download_image env pil m = (true, 1, []) := by
  simp [download_image, downloadGo, attemptStep, h]

/-- C4 witness: concrete skip with an existing file. -/
theorem c4_idempotent_skip_witness : download_image envExists pilTriv 3 = (true, 1, []) :=
  c4_idempotent_skip envExists pilTriv 3 rfl

/-- C7: a response body under 100 bytes makes the attempt fail without writing
anything (its trace is just the delay and the GET), and with retries left the
download continues into the backoff-retry path rather than crashing or
succeeding. -/
theorem c7_small_payload (a : AttemptEnv) (pil : PILEnv) (body : List Nat) (ct : List Char)
    (h1 : a.fileExists = false) (h2 : a.resp = FetchResp.ok body ct)
    (h3 : body.length < 100) :
    attemptStep a pil = (false, [FetchEv.sleepHalf, FetchEv.netGet]) ∧
    (∀ env m r fuel, env r = a → r < m →
      downloadGo env pil m (fuel + 1) r =
        ((downloadGo env pil m fuel (r + 1)).1,
         (downloadGo env pil m fuel (r + 1)).2.1 + 1,
         FetchEv.sleepHalf :: FetchEv.netGet :: FetchEv.sleepBackoff (2 ^ r) ::
           (downloadGo env pil m fuel (r + 1)).2.2)) := by
  have hstep : attemptStep a pil = (false, [FetchEv.sleepHalf, FetchEv.netGet]) := by
    simp [attemptStep, h1, h2, if_pos h3]
  refine ⟨hstep, fun env m r fuel henv hr => ?_⟩
  rw [downloadGo, henv, hstep]
  simp [if_pos hr]

/-- C7 witness: a 5-byte body at attempt 0 with retries remaining. -/
theorem c7_small_payload_witness :
    attemptStep aSmall pilTriv = (false, [FetchEv.sleepHalf, FetchEv.netGet]) ∧
    downloadGo envSmall pilTriv 3 4 0 =
      ((downloadGo envSmall pilTriv 3 3 1).1,
       (downloadGo envSmall pilTriv 3 3 1).2.1 + 1,
       FetchEv.sleepHalf :: FetchEv.netGet :: FetchEv.sleepBackoff 1 ::
         (downloadGo envSmall pilTriv 3 3 1).2.2) :=
  ⟨(c7_small_payload aSmall pilTriv (List.replicate 5 1) (toL "image/png")
      rfl rfl (by decide)).1,
   (c7_small_payload aSmall pilTriv (List.replicate 5 1) (toL "image/png")
      rfl rfl (by decide)).2 envSmall 3 0 3 rfl (by decide)⟩

/-- C8: on a successful attempt the bytes written are exactly the response
body when the declared content type mentions `svg` (case-insensitively), and
exactly the output of the size-reduction step `compress_image` (budget 500 KB)
otherwise. -/
theorem c8_svg_exemption (a : AttemptEnv) (pil : PILEnv) (body : List Nat) (ct : List Char)
    (h1 : a.fileExists = false) (h2 : a.resp = FetchResp.ok body ct)
    (h3 : 100 ≤ body.length) (h4 : a.writeOk = true) :
    attemptStep a pil =
      (true, [FetchEv.sleepHalf, FetchEv.netGet, FetchEv.mkdirParents,
              FetchEv.fileWrite (if containsSvg ct then body else compress_image pil body 500)]) := by
  simp [attemptStep, h1, h2, h4, if_neg (by omega : ¬ body.length < 100)]

set_option maxRecDepth 20000 in
/-- C8 witness: a 150-byte SVG payload is written unmodified. -/
theorem c8_svg_exemption_witness :
    attemptStep aSvg pilTriv =
      (true, [FetchEv.sleepHalf, FetchEv.netGet, FetchEv.mkdirParents,
              FetchEv.fileWrite (if containsSvg (toL "image/svg+xml") then List.replicate 150 0
                                 else compress_image pilTriv (List.replicate 150 0) 500)]) :=
  c8_svg_exemption aSvg pilTriv (List.replicate 150 0) (toL "image/svg+xml")
    rfl rfl (by decide) rfl

theorem compress_image_find (pil : PILEnv) (data : List Nat) (kb img0 : Nat)
    (enc : Nat → List Nat)
    (hbig : kb * 1024 < data.length)
    (hdec : pil.decodeImg data = some img0)
    (henc : ∀ q, pil.save (if pil.isRGBA img0 then pil.flattenWhite img0 else img0) jpegFmt q
        = some (enc q)) :
    compress_image pil data kb =
      match qualityList.find? (fun q => (enc q).length ≤ kb * 1024) with
      | some q => enc q
      | none => enc 20 := by
  have h1 : ¬ data.length ≤ kb * 1024 := by omega
  simp only [compress_image, hdec, if_neg h1]
  rw [compressLoop_spec pil (if pil.isRGBA img0 then pil.flattenWhite img0 else img0)
    kb enc henc qualityList]

/-- C3 counterexample: with an encoder that never meets the budget and whose
output records the quality used, the result of `compress_image` is the
quality-20 encoding, not the quality-25 encoding the claim requires. -/
theorem c3_counterexample :
    compress_image pilCE [7] 0 = [20] ∧ ¬ compress_image pilCE [7] 0 = [25] := by
  decide

/-- C3 (amended): for a payload over budget that decodes, `compress_image`
returns the first of the quality-85-down-to-25 encodings that fits the budget,
and if none fits it returns the quality-20 encoding (not quality 25). -/
theorem c3_quality_floor (pil : PILEnv) (data : List Nat) (kb img0 : Nat)
    (enc : Nat → List Nat)
    (hbig : kb * 1024 < data.length)
    (hdec : pil.decodeImg data = some img0)
    (henc : ∀ q, pil.save (if pil.isRGBA img0 then pil.flattenWhite img0 else img0) jpegFmt q
        = some (enc q)) :
    compress_image pil data kb =
      match qualityList.find? (fun q => (enc q).length ≤ kb * 1024) with
      | some q => enc q
      | none => enc 20 :=
  compress_image_find pil data kb img0 enc hbig hdec henc

/-- C3 witness: concrete instance where no quality fits a zero budget. -/
theorem c3_quality_floor_witness :
    compress_image pilCE [7] 0 =
      match qualityList.find? (fun q => ([q] : List Nat).length ≤ 0 * 1024) with
      | some q => [q]
      | none => [20] :=
  c3_quality_floor pilCE [7] 0 0 (fun q => [q]) (by decide) rfl (fun _ => rfl)

/-- C10: an over-budget payload that decodes is re-encoded by `img.save` with
format string `JPEG` at some quality from the schedule (or the fallback
quality 20) regardless of the input encoding, while the stored filename keeps
the extension derived from the URL, so the stored extension need not match
the stored encoding. -/
theorem c10_jpeg_reencode :
    (∀ (pil : PILEnv) (data : List Nat) (kb img0 : Nat) (enc : Nat → List Nat),
      kb * 1024 < data.length →
      pil.decodeImg data = some img0 →
      (∀ q, pil.save (if pil.isRGBA img0 then pil.flattenWhite img0 else img0) jpegFmt q
          = some (enc q)) →
      ∃ q, (q ∈ qualityList ∨ q = 20) ∧ compress_image pil data kb = enc q) ∧
    (∀ (url : List Char) (ct : Option (List Char)) (e : List Char),
      extFromUrl url = some e → e <:+ generate_filename url ct) := by
  constructor
  · intro pil data kb img0 enc hbig hdec henc
    have h := compress_image_find pil data kb img0 enc hbig hdec henc
    rcases hf : qualityList.find? (fun q => (enc q).length ≤ kb * 1024) with _ | q
    · exact ⟨20, Or.inr rfl, by rw [h, hf]⟩
    · exact ⟨q, Or.inl (List.mem_of_find?_eq_some hf), by rw [h, hf]⟩
  · intro url ct e h
    simp only [extFromUrl] at h
    split at h
    · split at h
      · simp only [Option.some.injEq] at h
        subst h
        simp only [generate_filename]
        rw [if_pos (by assumption), if_pos (by assumption)]
        exact ⟨(sanitize_filename (splitext (pyBasename (unquote (urlPath url)))).1).take 20 ++
          '_' :: urlHash12 url, by simp [urlHash12]⟩
      · exact absurd h (by simp)
    · exact absurd h (by simp)

set_option maxRecDepth 20000 in
/-- C10 witness: concrete over-budget payload and a concrete `.png` url. -/
theorem c10_jpeg_reencode_witness :
    (∃ q, (q ∈ qualityList ∨ q = 20) ∧ compress_image pilCE [7] 0 = [q]) ∧
    (toL ".png") <:+ generate_filename (toL "http://x/a.png") none :=
  ⟨c10_jpeg_reencode.1 pilCE [7] 0 0 (fun q => [q]) (by decide) rfl (fun _ => rfl),
   c10_jpeg_reencode.2 (toL "http://x/a.png") none (toL ".png") (by decide)⟩

set_option maxRecDepth 100000 in
/-- C5 counterexample: a document referencing the same url twice dispatches
two fetches for it, refuting "at most one fetch per distinct URL". -/
theorem c5_counterexample :
    (processDoc doc2 (fun _ => false)).dispatches.countP
        (fun d => d.1 = toL "http://x/a.png") = 2 ∧
    ¬ ((processDoc doc2 (fun _ => false)).dispatches.countP
        (fun d => d.1 = toL "http://x/a.png") ≤ 1) := by
  decide

/-- C5 (amended): the coordinator dispatches exactly one fetch per extracted
reference entry — duplicate urls are dispatched once per occurrence, with no
deduplication of fetch work by url. -/
theorem c5_dispatch_per_reference (content : List Char) (outcome : Nat → Bool)
    (u : List Char) :
    (processDoc content outcome).dispatches.countP (fun d => d.1 = u) =
      (extract_image_urls content).countP (fun r => r.1 = u) := by
  rcases hE : extract_image_urls content with _ | ⟨p, t⟩
  · simp [processDoc, hE]
  · simp only [processDoc]
    rw [hE]
    simp [List.countP_map, List.countP_cons, Function.comp]
    rfl

set_option maxRecDepth 100000 in
/-- C5 witness: the amended per-reference dispatch count at a concrete
document with a duplicated url. -/
theorem c5_dispatch_per_reference_witness :
    (processDoc doc2 (fun _ => false)).dispatches.countP
        (fun d => d.1 = toL "http://x/a.png") =
      (extract_image_urls doc2).countP (fun r => r.1 = toL "http://x/a.png") :=
  c5_dispatch_per_reference doc2 (fun _ => false) (toL "http://x/a.png")

set_option maxRecDepth 100000 in
/-- C6 counterexample: a document whose only reference fails to download still
gets its `images` folder created (the folder is made before any download),
refuting "the subfolder comes into existence only if at least one reference
was successfully downloaded". -/
theorem c6_counterexample :
    (processDoc doc1 (fun _ => false)).mkdirImages = true ∧
    (processDoc doc1 (fun _ => false)).replacements = [] ∧
    (processDoc doc1 (fun _ => false)).wroteFile = false := by
  decide

/-- C6 (amended): the `images` subfolder is created exactly when the document
has at least one qualifying remote reference (regardless of download
success), and a document with no qualifying references gets no subfolder and
its text back unchanged, with no rewrite of the file. -/
theorem c6_folder_on_references (content : List Char) (outcome : Nat → Bool) :
    ((processDoc content outcome).mkdirImages = true ↔ extract_image_urls content ≠ []) ∧
    (extract_image_urls content = [] →
      (processDoc content outcome).finalText = content ∧
      (processDoc content outcome).wroteFile = false) := by
  rcases hE : extract_image_urls content with _ | ⟨p, t⟩
  · simp [processDoc, hE]
  · constructor
    · simp [processDoc, hE]
    · intro h
      simp [hE] at h

/-- C6 witness: a document with no references is returned unchanged. -/
theorem c6_folder_on_references_witness :
    (processDoc docNone (fun _ => false)).finalText = docNone ∧
    (processDoc docNone (fun _ => false)).wroteFile = false :=
  (c6_folder_on_references docNone (fun _ => false)).2 (by decide)

theorem md5Digest_length (m : List Nat) : (md5Digest m).length = 16 := by
  simp [md5Digest, le32]

theorem md5Digest_lt (m : List Nat) : ∀ b ∈ md5Digest m, b < 256 := by
  intro b hb
  simp [md5Digest, le32] at hb
  rcases hb with h | h | h | h | h | h | h | h | h | h | h | h | h | h | h | h <;>
    subst h <;> omega

theorem hexChar_hex : ∀ n, n < 16 → isHexChar (hexChar n) = true := by decide

theorem hexChar_safe : ∀ n, n < 16 → fsSafeChar (hexChar n) = true := by decide

theorem flatCat_byteHex_chars (l : List Nat) (hl : ∀ b ∈ l, b < 256) :
    ∀ c ∈ flatCat (l.map byteHex), isHexChar c = true ∧ fsSafeChar c = true := by
  induction l with
  | nil => simp [flatCat]
  | cons b t ih =>
    intro c hc
    simp only [List.map_cons, flatCat, List.mem_append] at hc
    rcases hc with hc | hc
    · have hb : b < 256 := hl b (List.mem_cons_self b t)
      have h1 : b / 16 < 16 := by omega
      have h2 : b % 16 < 16 := by omega
      simp only [byteHex, List.mem_cons, List.not_mem_nil, or_false] at hc
      rcases hc with rfl | rfl
      · exact ⟨hexChar_hex _ h1, hexChar_safe _ h1⟩
      · exact ⟨hexChar_hex _ h2, hexChar_safe _ h2⟩
    · exact ih (fun x hx => hl x (List.mem_cons_of_mem b hx)) c hc

theorem flatCat_byteHex_length (l : List Nat) :
    (flatCat (l.map byteHex)).length = 2 * l.length := by
  induction l with
  | nil => simp [flatCat]
  | cons b t ih => simp [flatCat, byteHex, ih]; omega

theorem md5hex_length (m : List Nat) : (md5hex m).length = 32 := by
  simp [md5hex, flatCat_byteHex_length, md5Digest_length]

theorem urlHash12_length (url : List Char) : (urlHash12 url).length = 12 := by
  simp [urlHash12, List.length_take, md5hex_length]

theorem urlHash12_chars (url : List Char) :
    ∀ c ∈ urlHash12 url, isHexChar c = true ∧ fsSafeChar c = true := fun c hc =>
  flatCat_byteHex_chars (md5Digest (utf8Encode url)) (md5Digest_lt _) c
    (List.take_subset _ _ hc)

theorem replaceFold_eq_map (L : List Char) :
    ∀ f : List Char, '_' ∉ L →
      L.foldl (fun acc c => acc.map (fun x => if x = c then '_' else x)) f
        = f.map (fun x => if x ∈ L then '_' else x) := by
  induction L with
  | nil => intro f _; simp
  | cons c L ih =>
    intro f hmem
    have h1 : '_' ∉ L := fun h => hmem (List.mem_cons_of_mem _ h)
    simp only [List.foldl_cons]
    rw [ih _ h1, List.map_map]
    refine congrArg f.map (funext fun x => ?_)
    by_cases hx : x = c
    · subst hx
      simp [if_neg h1]
    · simp [Function.comp, hx, List.mem_cons]

theorem splitext_subset (p : List Char) : (splitext p).1 ⊆ p ∧ (splitext p).2 ⊆ p := by
  unfold splitext
  split
  · exact ⟨fun _ h => h, by simp⟩
  · split
    · split
      · exact ⟨List.take_subset _ _, List.drop_subset _ _⟩
      · exact ⟨fun _ h => h, by simp⟩
    · split
      · split
        · exact ⟨List.take_subset _ _, List.drop_subset _ _⟩
        · exact ⟨fun _ h => h, by simp⟩
      · exact ⟨fun _ h => h, by simp⟩

theorem not_illegal_safe (x : Char) (hx : x ∉ illegalChars) : fsSafeChar x = true := by
  simp only [fsSafeChar, Bool.not_eq_true']
  simpa using hx

theorem sanitize_safe (f : List Char) : ∀ c ∈ sanitize_filename f, fsSafeChar c = true := by
  unfold sanitize_filename
  rw [replaceFold_eq_map illegalChars f (by decide)]
  have hg : ∀ c ∈ f.map (fun x => if x ∈ illegalChars then '_' else x), fsSafeChar c = true := by
    intro c hc
    rcases List.mem_map.mp hc with ⟨x, _, rfl⟩
    by_cases hx : x ∈ illegalChars
    · rw [if_pos hx]; decide
    · rw [if_neg hx]; exact not_illegal_safe x hx
  dsimp only
  split
  · intro c hc
    rcases List.mem_append.mp hc with h | h
    · exact hg c ((splitext_subset _).1 (List.take_subset _ _ h))
    · exact hg c ((splitext_subset _).2 h)
  · exact hg

theorem imageExts_facts : ∀ e ∈ imageExts, (∀ c ∈ e, fsSafeChar c = true) ∧ e.length ≤ 5 := by
  decide

theorem gie_facts (url : List Char) (ct : Option (List Char)) :
    (∀ c ∈ get_image_extension url ct, fsSafeChar c = true) ∧
    (get_image_extension url ct).length ≤ 5 := by
  unfold get_image_extension
  dsimp only
  split
  · exact imageExts_facts _ (by assumption)
  · split
    · split
      · split
        · decide
        · split
          · decide
          · split
            · decide
            · split
              · decide
              · split
                · decide
                · decide
      · decide
    · decide

theorem generate_filename_cases (url : List Char) (ct : Option (List Char)) :
    (∃ name ext, generate_filename url ct = name ++ '_' :: urlHash12 url ++ ext ∧
      name.length ≤ 20 ∧ (∀ c ∈ name, fsSafeChar c = true) ∧ ext ∈ imageExts) ∨
    (∃ ext, generate_filename url ct = toL "image_" ++ urlHash12 url ++ ext ∧
      (∀ c ∈ ext, fsSafeChar c = true) ∧ ext.length ≤ 5) := by
  unfold generate_filename
  dsimp only
  split
  · split
    · left
      refine ⟨(sanitize_filename (splitext (pyBasename (unquote (urlPath url)))).1).take 20,
        lowerL (splitext (pyBasename (unquote (urlPath url)))).2, rfl, List.length_take_le _ _,
        fun c hc => sanitize_safe _ c (List.take_subset _ _ hc), by assumption⟩
    · right
      exact ⟨get_image_extension url ct, rfl, (gie_facts url ct).1, (gie_facts url ct).2⟩
  · right
    exact ⟨get_image_extension url ct, rfl, (gie_facts url ct).1, (gie_facts url ct).2⟩

theorem takeRun_append (p : Char → Bool) (xs : List Char) (c : Char) (cs : List Char)
    (h1 : ∀ x ∈ xs, p x = true) (h2 : p c = false) :
    takeRun p (xs ++ c :: cs) = (xs, c :: cs) := by
  induction xs with
  | nil => simp [takeRun, h2]
  | cons x t ih =>
    have hx : p x = true := h1 x (List.mem_cons_self _ _)
    simp [takeRun, hx, ih (fun y hy => h1 y (List.mem_cons_of_mem _ hy))]

theorem tryAttr_not_word (c : Char) (rest : List Char) (h : isWordChar c = false) :
    tryAttr (c :: rest) = none := by
  simp [tryAttr, takeRun, h]

theorem tryAttr_word_stop (w0 : List Char) (c : Char) (z : List Char)
    (hw : w0 ≠ []) (hww : ∀ x ∈ w0, isWordChar x = true) (hc : isWordChar c = false)
    (hne : ¬ c = '=') : tryAttr (w0 ++ c :: z) = none := by
  have hW := takeRun_append isWordChar w0 c z hww hc
  obtain ⟨a, w', rfl⟩ := List.exists_cons_of_ne_nil hw
  simp only [List.cons_append] at hW
  simp [tryAttr, hW, hne]

theorem tryAttr_at (n v r : List Char) (hn : n ≠ []) (hnw : ∀ c ∈ n, isWordChar c = true)
    (hv : v ≠ []) (hvv : ∀ c ∈ v, isValChar c = true) :
    tryAttr (n ++ '=' :: '"' :: (v ++ '"' :: r)) = some ((n, v), r) := by
  have hW : takeRun isWordChar (n ++ '=' :: '"' :: (v ++ '"' :: r))
      = (n, '=' :: '"' :: (v ++ '"' :: r)) := takeRun_append _ _ _ _ hnw (by decide)
  have hV : takeRun isValChar (v ++ '"' :: r) = (v, '"' :: r) :=
    takeRun_append _ _ _ _ hvv (by decide)
  obtain ⟨c0, n', rfl⟩ := List.exists_cons_of_ne_nil hn
  obtain ⟨d0, v', rfl⟩ := List.exists_cons_of_ne_nil hv
  simp only [List.cons_append] at hW hV
  simp [tryAttr, hW, hV, isQuote]

theorem findAttrsF_nil (fuel : Nat) : findAttrsF fuel [] = [] := by
  cases fuel <;> rfl

theorem findAttrsF_skip (fuel : Nat) (c : Char) (rest : List Char)
    (h : tryAttr (c :: rest) = none) :
    findAttrsF (fuel + 1) (c :: rest) = findAttrsF fuel rest := by
  simp [findAttrsF, h]

theorem findAttrsF_hit (fuel : Nat) (c : Char) (rest : List Char)
    (g : List Char × List Char) (s : List Char) (h : tryAttr (c :: rest) = some (g, s)) :
    findAttrsF (fuel + 1) (c :: rest) = g :: findAttrsF fuel s := by
  simp [findAttrsF, h]

theorem goodAttr_parts (n v : List Char) (h : goodAttr (n, v) = true) :
    n ≠ [] ∧ (∀ c ∈ n, isWordChar c = true) ∧ v ≠ [] ∧ (∀ c ∈ v, isValChar c = true) := by
  simp only [goodAttr, Bool.and_eq_true, Bool.not_eq_true', List.isEmpty_eq_false,
    List.all_eq_true] at h
  exact ⟨h.1.1.1, h.1.1.2, h.1.2, h.2⟩

theorem attrsChars_cons (n v : List Char) (t : List (List Char × List Char)) :
    attrsChars ((n, v) :: t) ++ ['>']
      = ' ' :: (n ++ '=' :: '"' :: (v ++ '"' :: (attrsChars t ++ ['>']))) := by
  simp [attrsChars, flatCat, renderAttr]

theorem findAttrsF_render (attrs : List (List Char × List Char)) :
    (∀ p ∈ attrs, goodAttr p = true) →
    ∀ fuel, (attrsChars attrs).length + 1 ≤ fuel →
      findAttrsF fuel (attrsChars attrs ++ ['>']) = attrs := by
  induction attrs with
  | nil =>
    intro _ fuel hf
    have h0 : attrsChars [] = [] := rfl
    rw [h0] at hf ⊢
    obtain ⟨f, rfl⟩ : ∃ f, fuel = f + 1 := ⟨fuel - 1, by omega⟩
    simp only [List.nil_append]
    rw [findAttrsF_skip f '>' [] (tryAttr_not_word '>' [] (by decide))]
    exact findAttrsF_nil f
  | cons a t ih =>
    rcases a with ⟨n, v⟩
    intro hgood fuel hf
    obtain ⟨hn, hnw, hv, hvv⟩ := goodAttr_parts n v (hgood _ (List.mem_cons_self _ _))
    have hlen : (attrsChars ((n, v) :: t)).length
        = 4 + n.length + v.length + (attrsChars t).length := by
      have h2 := congrArg List.length (attrsChars_cons n v t)
      simp only [List.length_append, List.length_cons, List.length_nil] at h2
      omega
    obtain ⟨f, rfl⟩ : ∃ f, fuel = f + 2 := ⟨fuel - 2, by omega⟩
    rw [attrsChars_cons]
    rw [findAttrsF_skip (f + 1) ' ' _ (tryAttr_not_word ' ' _ (by decide))]
    obtain ⟨c0, n', rfl⟩ := List.exists_cons_of_ne_nil hn
    have hhit := tryAttr_at (c0 :: n') v (attrsChars t ++ ['>']) hn hnw hv hvv
    rw [List.cons_append] at hhit
    simp only [List.cons_append]
    rw [findAttrsF_hit f c0 _ _ _ hhit]
    have hfz : (attrsChars t).length + 1 ≤ f := by omega
    rw [ih (fun p hp => hgood p (List.mem_cons_of_mem _ hp)) f hfz]

theorem findAttrs_renderTag (attrs : List (List Char × List Char))
    (h : ∀ p ∈ attrs, goodAttr p = true) :
    findAttrs (renderTag attrs) = attrs := by
  cases attrs with
  | nil => decide
  | cons a t =>
    rcases a with ⟨n, v⟩
    obtain ⟨z, hz⟩ : ∃ z, attrsChars ((n, v) :: t) ++ ['>'] = ' ' :: z :=
      ⟨_, attrsChars_cons n v t⟩
    have hcore : findAttrsF ((attrsChars ((n, v) :: t)).length + 1)
        (attrsChars ((n, v) :: t) ++ ['>']) = (n, v) :: t :=
      findAttrsF_render _ h _ (le_refl _)
    have hshape : renderTag ((n, v) :: t)
        = '<' :: 'i' :: 'm' :: 'g' :: (attrsChars ((n, v) :: t) ++ ['>']) := by
      simp [renderTag, toL]
    have hlen : (renderTag ((n, v) :: t)).length
        = (attrsChars ((n, v) :: t)).length + 1 + 4 := by
      rw [hshape]
      simp
      try omega
    have hi : tryAttr ('i' :: 'm' :: 'g' :: ' ' :: z) = none :=
      tryAttr_word_stop ['i', 'm', 'g'] ' ' z (by simp) (by decide) (by decide) (by decide)
    have hm : tryAttr ('m' :: 'g' :: ' ' :: z) = none :=
      tryAttr_word_stop ['m', 'g'] ' ' z (by simp) (by decide) (by decide) (by decide)
    have hg : tryAttr ('g' :: ' ' :: z) = none :=
      tryAttr_word_stop ['g'] ' ' z (by simp) (by decide) (by decide) (by decide)
    unfold findAttrs
    rw [hlen, hshape, hz]
    rw [show (attrsChars ((n, v) :: t)).length + 1 + 4
        = ((attrsChars ((n, v) :: t)).length + 1 + 3) + 1 from rfl]
    rw [findAttrsF_skip _ '<' _ (tryAttr_not_word '<' _ (by decide))]
    rw [show (attrsChars ((n, v) :: t)).length + 1 + 3
        = ((attrsChars ((n, v) :: t)).length + 1 + 2) + 1 from rfl]
    rw [findAttrsF_skip _ 'i' _ hi]
    rw [show (attrsChars ((n, v) :: t)).length + 1 + 2
        = ((attrsChars ((n, v) :: t)).length + 1 + 1) + 1 from rfl]
    rw [findAttrsF_skip _ 'm' _ hm]
    rw [findAttrsF_skip _ 'g' _ hg]
    rw [← hz]
    exact hcore

theorem pyDict_go (l : List (List Char × List Char)) :
    ∀ acc : List (List Char × List Char),
      (acc.map Prod.fst ++ l.map Prod.fst).Nodup →
      l.foldl (fun acc p => dictUpd acc p.1 p.2) acc = acc ++ l := by
  induction l with
  | nil => intro acc _; simp
  | cons p t ih =>
    intro acc h
    have hdisj : p.1 ∉ acc.map Prod.fst := by
      rcases List.nodup_append.mp h with ⟨_, _, hd⟩
      intro hmem
      exact hd hmem (by simp)
    have hupd : dictUpd acc p.1 p.2 = acc ++ [p] := by
      unfold dictUpd
      have hany : acc.any (fun q => q.1 = p.1) = false := by
        simp only [List.any_eq_false, decide_eq_true_eq]
        intro q hq hqe
        exact hdisj (hqe ▸ List.mem_map_of_mem Prod.fst hq)
      simp [hany]
    rw [List.foldl_cons, hupd,
      ih (acc ++ [p]) (by rw [List.map_append, List.append_assoc]; simpa using h)]
    simp

theorem pyDict_nodup (l : List (List Char × List Char))
    (h : (l.map Prod.fst).Nodup) : pyDict l = l := by
  have := pyDict_go l [] (by simpa using h)
  simpa [pyDict] using this

theorem joinSp_cons_flat (l : List (List Char)) :
    ∀ a : List Char,
      ' ' :: joinSp (a :: l) = flatCat ((a :: l).map (fun x => ' ' :: x)) := by
  induction l with
  | nil => intro a; simp [joinSp, flatCat]
  | cons b t ih =>
    intro a
    show ' ' :: joinSp (a :: b :: t) = flatCat ((a :: b :: t).map (fun x => ' ' :: x))
    rw [show joinSp (a :: b :: t) = a ++ ' ' :: joinSp (b :: t) from rfl]
    rw [show flatCat ((a :: b :: t).map (fun x => ' ' :: x))
        = (' ' :: a) ++ flatCat ((b :: t).map (fun x => ' ' :: x)) from rfl]
    rw [← ih b]
    simp

set_option maxRecDepth 100000 in
/-- C1 counterexample: an extractable tag with an empty-valued attribute
(`alt=""`), rewritten for a successful download, drops the attribute entirely
(the rewritten tag does not even mention `alt`), refuting "every other
attribute preserved in its original order". -/
theorem c1_counterexample :
    rewriteEntry (toL "<img src=\"http://q/r.png\" alt=\"\">") (toL "images/r_h.png")
        = some (toL "<img src=\"images/r_h.png\">") ∧
    containsSub ((rewriteEntry (toL "<img src=\"http://q/r.png\" alt=\"\">")
        (toL "images/r_h.png")).getD []) (toL "alt") = false := by
  decide

/-- C1 (amended): for a tag whose attributes are well formed — non-empty
word-character names, pairwise distinct, and non-empty values free of quotes
and `>` — the rewriter parses exactly those attribute pairs, replaces the
`src` value with the local path (matching the name case-insensitively),
and reassembles the tag with `src` first and every other attribute preserved
in its original order with no duplicate `src`; attributes with empty values
are dropped by the attribute regex, so they are excluded by the hypothesis.
For the bracket form, alt text is preserved verbatim. -/
theorem c1_rewriter :
    (∀ (attrs : List (List Char × List Char)) (local_path : List Char),
      goodAttrs attrs →
      rewriteEntry (renderTag attrs) local_path =
        some (renderTag ((toL "src", local_path) ::
          attrs.filter (fun p => !(lowerL p.1 = toL "src"))))) ∧
    (∀ (alt url local_path : List Char),
      alt.contains ']' = false → url ≠ [] → url.contains ')' = false →
      rewriteEntry (bracketText alt url) local_path
        = some (bracketText alt local_path)) := by
  constructor
  · rintro attrs local_path ⟨hgood, hnodup⟩
    have hpre : (toL "![").isPrefixOf (renderTag attrs) = false := rfl
    have hfa := findAttrs_renderTag attrs hgood
    have hpd := pyDict_nodup attrs hnodup
    simp only [rewriteEntry, hpre, Bool.false_eq_true, if_neg, hfa, hpd]
    rw [show renderTag ((toL "src", local_path) ::
        attrs.filter (fun p => !(lowerL p.1 = toL "src")))
      = toL "<img" ++ (' ' :: joinSp
          ((('s' :: 'r' :: 'c' :: '=' :: '"' :: (local_path ++ ['"']))) ::
            (attrs.filter (fun p => !(lowerL p.1 = toL "src"))).map
              (fun p => p.1 ++ '=' :: '"' :: p.2 ++ ['"']))) ++ ['>'] from ?_]
    · simp [toL]
    · rw [joinSp_cons_flat]
      simp [renderTag, attrsChars, renderAttr, flatCat, List.map_map, Function.comp]
      try rfl
  · intro alt url local_path hal hurl hup
    have hal' : ']' ∉ alt := by simpa using hal
    have hup' : ')' ∉ url := by simpa using hup
    have halt : ∀ x ∈ alt, (fun c => !(c = ']')) x = true := by
      intro x hx
      simp only [Bool.not_eq_true', decide_eq_false_iff_not]
      rintro rfl
      exact hal' hx
    have hurlc : ∀ x ∈ url, (fun c => !(c = ')')) x = true := by
      intro x hx
      simp only [Bool.not_eq_true', decide_eq_false_iff_not]
      rintro rfl
      exact hup' hx
    have h1 : takeRun (fun c => !(c = ']')) (alt ++ ']' :: ('(' :: (url ++ [')'])))
        = (alt, ']' :: ('(' :: (url ++ [')']))) :=
      takeRun_append _ _ _ _ halt (by decide)
    have h2 : takeRun (fun c => !(c = ')')) (url ++ [')']) = (url, [')']) :=
      takeRun_append _ _ _ _ hurlc (by decide)
    obtain ⟨u0, u', rfl⟩ := List.exists_cons_of_ne_nil hurl
    have hshape : bracketText alt (u0 :: u')
        = '!' :: '[' :: (alt ++ ']' :: ('(' :: ((u0 :: u') ++ [')']))) := by
      simp [bracketText]
    rw [hshape]
    simp only [List.cons_append] at h1 h2
    simp [rewriteEntry, parseBracketAlt, tryBracket, h1, h2, bracketText]
    simp [List.isPrefixOf, toL]

set_option maxRecDepth 100000 in
/-- C1 witness: concrete tag and bracket instances of the amended rewrite. -/
theorem c1_rewriter_witness :
    (goodAttrs attrsW ∧
      rewriteEntry (renderTag attrsW) (toL "images/a_h.png") =
        some (renderTag ((toL "src", toL "images/a_h.png") ::
          attrsW.filter (fun p => !(lowerL p.1 = toL "src"))))) ∧
    rewriteEntry (bracketText (toL "cat") (toL "http://x/a.png")) (toL "images/a_h.png")
      = some (bracketText (toL "cat") (toL "images/a_h.png")) :=
  ⟨⟨⟨by decide, by decide⟩, c1_rewriter.1 attrsW (toL "images/a_h.png") ⟨by decide, by decide⟩⟩,
   c1_rewriter.2 (toL "cat") (toL "http://x/a.png") (toL "images/a_h.png")
     (by decide) (by decide) (by decide)⟩

/-- C9: the name resolver is deterministic (a pure function of the url and
content type), the resolved name embeds the 12-hex-character MD5 fingerprint
of the url, every character of the name is filesystem-safe (no path
separators or reserved characters), and the name length is at most 38. -/
theorem c9_name_resolver (url : List Char) (ct : Option (List Char)) :
    generate_filename url ct = generate_filename url ct ∧
    (urlHash12 url).length = 12 ∧
    (∀ c ∈ urlHash12 url, isHexChar c = true) ∧
    urlHash12 url <:+: generate_filename url ct ∧
    (∀ c ∈ generate_filename url ct, fsSafeChar c = true) ∧
    (generate_filename url ct).length ≤ 38 := by
  have himg : ∀ x ∈ toL "image_", fsSafeChar x = true := by decide
  refine ⟨rfl, urlHash12_length url, fun c hc => (urlHash12_chars url c hc).1, ?_, ?_, ?_⟩
  · rcases generate_filename_cases url ct with ⟨name, ext, heq, _, _, _⟩ | ⟨ext, heq, _, _⟩
    · exact ⟨name ++ ['_'], ext, by rw [heq]; try simp⟩
    · exact ⟨toL "image_", ext, by rw [heq]; try simp⟩
  · rcases generate_filename_cases url ct with ⟨name, ext, heq, _, hsafe, hext⟩ |
      ⟨ext, heq, hsafe, _⟩
    · intro c hc
      rw [heq] at hc
      rcases List.mem_append.mp hc with h | h
      · rcases List.mem_append.mp h with h1 | h1
        · exact hsafe c h1
        · rcases List.mem_cons.mp h1 with rfl | h2
          · decide
          · exact (urlHash12_chars url c h2).2
      · exact (imageExts_facts ext hext).1 c h
    · intro c hc
      rw [heq] at hc
      rcases List.mem_append.mp hc with h | h
      · rcases List.mem_append.mp h with h2 | h2
        · exact himg c h2
        · exact (urlHash12_chars url c h2).2
      · exact hsafe c h
  · rcases generate_filename_cases url ct with ⟨name, ext, heq, hlen, _, hext⟩ |
      ⟨ext, heq, _, hlen⟩
    · rw [heq]
      have h1 := urlHash12_length url
      have h2 := (imageExts_facts ext hext).2
      simp only [List.length_append, List.length_cons]
      omega
    · rw [heq]
      have h1 := urlHash12_length url
      have h2 : (toL "image_").length = 6 := rfl
      simp only [List.length_append]
      omega

/-- C9 witness: the resolver properties at a concrete url. -/
theorem c9_name_resolver_witness :
    generate_filename (toL "http://x/a.png") none
        = generate_filename (toL "http://x/a.png") none ∧
    (urlHash12 (toL "http://x/a.png")).length = 12 ∧
    (∀ c ∈ urlHash12 (toL "http://x/a.png"), isHexChar c = true) ∧
    urlHash12 (toL "http://x/a.png") <:+: generate_filename (toL "http://x/a.png") none ∧
    (∀ c ∈ generate_filename (toL "http://x/a.png") none, fsSafeChar c = true) ∧
    (generate_filename (toL "http://x/a.png") none).length ≤ 38 :=
  c9_name_resolver (toL "http://x/a.png") none
